import Mathlib

set_option maxRecDepth 4000

/-!
Verification of the compression-search loop of `img-compressor`
(`src/compress.py`), shallowly embedded in Lean 4.

The JPEG encoder is abstracted as a function `Encoder` from the working
image's dimensions and quality to the encoded byte buffer; within one run
of `_compress_image` the working image is fully determined by its current
dimensions (the resize chain is deterministic), so this abstraction is
faithful for the loop logic.  Machine floats in `int(width * resize_step)`
are modelled by a rational scale factor `rNum / rDen` and Nat floor
division.  File-system effects (the single `write_bytes` and the re-read
of the file size) are modelled by returning the written bytes alongside
the result.
-/

namespace ImgCompressor

/-- The note strings produced by `_compress_image`, as symbolic values:
`empty` is the initial `""`; `cannotCompress` is the
"cannot compress further" message (line 78); `bestEffort` the
"best effort, still over target" message (line 101); `withFinalSize n sz`
is note `n` with the final size appended (line 104); `converted f` the
format-conversion message (line 107); `unknownProblem` the generic
failure message (line 93). -/
inductive Note where
  | empty
  | cannotCompress
  | bestEffort
  | withFinalSize (n : Note) (sz : Nat)
  | converted (fmt : String)
  | unknownProblem
deriving DecidableEq, Repr

/-- The `CompressResult` dataclass (path, original_size, final_size,
succeeded, note). -/
structure CompressResult where
  path : String
  originalSize : Nat
  finalSize : Nat
  succeeded : Bool
  note : Note
deriving DecidableEq, Repr

/-- The parameters of `_compress_image`: target_size, min_quality,
quality_step (Python ints), and resize_step as the rational
`rNum / rDen`. -/
structure Params where
  targetSize : Nat
  minQuality : Int
  qualityStep : Int
  rNum : Nat
  rDen : Nat
deriving DecidableEq, Repr

/-- The mutable loop state of `_compress_image`: `quality`, the working
image's `width`/`height`, `last_buffer` (the bytes of the last accepted
buffer, if any) and the `note` string. -/
structure St where
  quality : Int
  width : Nat
  height : Nat
  lastBuffer : Option (List Nat)
  note : Note
deriving DecidableEq, Repr

/-- Abstraction of `_save_to_buffer`: the encoded JPEG bytes as a function
of the working image's dimensions and the quality parameter. -/
def Encoder : Type := Nat → Nat → Int → List Nat

/-- Outcome of one iteration of the `while True` loop: exit the loop with
a final state, or continue with an updated state. -/
inductive StepRes where
  | done (s : St)
  | cont (s : St)
deriving DecidableEq, Repr

/-- One iteration of the `while True` loop of `_compress_image`
(lines 64-85): encode at the current quality; accept the buffer if it
fits the target; otherwise lower quality while above the minimum;
otherwise compute the clamped scaled-down dimensions and either exit
(dimensions unchanged: set the cannot-compress note and accept the
current buffer) or resize and reset quality. -/
def loopStep (enc : Encoder) (p : Params) (s : St) : StepRes :=
  let buffer := enc s.width s.height s.quality
  let size := buffer.length
  if size ≤ p.targetSize then
    .done { s with lastBuffer := some buffer }
  else if s.quality > p.minQuality then
    .cont { s with quality := max p.minQuality (s.quality - p.qualityStep) }
  else
    let newWidth := max 1 (s.width * p.rNum / p.rDen)
    let newHeight := max 1 (s.height * p.rNum / p.rDen)
    if newWidth = s.width ∧ newHeight = s.height then
      .done { s with note := .cannotCompress, lastBuffer := some buffer }
    else
      .cont { s with width := newWidth, height := newHeight,
                     quality := min 95 (max p.minQuality s.quality) }

/-- The `while True` loop run with explicit fuel: `some st` when the loop
exits within `fuel` iterations with final state `st`, `none` when it has
not exited yet. -/
def runLoop (enc : Encoder) (p : Params) : Nat → St → Option St
  | 0, _ => none
  | fuel + 1, s =>
    match loopStep enc p s with
    | .done t => some t
    | .cont t => runLoop enc p fuel t

/-- The loop of `_compress_image` terminates from state `s`. -/
def LoopTerminates (enc : Encoder) (p : Params) (s : St) : Prop :=
  ∃ n st, runLoop enc p n s = some st

/-- The state at loop entry (line 59-62): quality 95, the decoded image's
dimensions, no buffer yet, empty note. -/
def initSt (w h : Nat) : St :=
  { quality := 95, width := w, height := h, lastBuffer := none, note := .empty }

/-- Embedding of Python's `str.upper()` as used on the format name
(`img_format.upper()`), defined structurally over the characters. -/
def strUpper (s : String) : String := String.mk (s.data.map Char.toUpper)

/-- The post-loop tail of `_compress_image` (lines 87-115): on the
no-buffer path return the generic failure result and perform no write;
otherwise write the buffer's bytes to the path, take the re-read file
size as `final_size`, set `succeeded`, and apply the note precedence
(best-effort note, size appended on success, format-conversion note
last).  The second component is the single file write performed
(path and bytes), `none` when no write occurs. -/
def finish (p : Params) (path : String) (origSize : Nat)
    (imgFormat : Option String) (s : St) :
    CompressResult × Option (String × List Nat) :=
  match s.lastBuffer with
  | none =>
      ({ path := path, originalSize := origSize, finalSize := origSize,
         succeeded := false, note := .unknownProblem }, none)
  | some buf =>
      let finalSize := buf.length
      let success : Bool := finalSize ≤ p.targetSize
      let note1 := if success = false ∧ s.note = Note.empty then
          Note.bestEffort else s.note
      let note2 := if success = true ∧ note1 ≠ Note.empty then
          Note.withFinalSize note1 finalSize else note1
      let fmt := imgFormat.getD "JPEG"
      let note3 := if note2 = Note.empty ∧ strUpper fmt ≠ "JPEG" then
          Note.converted fmt else note2
      ({ path := path, originalSize := origSize, finalSize := finalSize,
         succeeded := success, note := note3 }, some (path, buf))

/-- Errors that escape `_compress_image` as Python exceptions
(`undecodable` models `PIL.UnidentifiedImageError` raised by
`Image.open`); `outOfFuel` is an artifact of the fuel-based embedding of
the `while True` loop (a run that has not exited within the given fuel). -/
inductive CompError where
  | undecodable (path : String)
  | outOfFuel
deriving DecidableEq, Repr

/-- A file on disk as seen by `_compress_image`: its path, its
`stat().st_size`, and the result of `Image.open` — `none` when the bytes
cannot be decoded as an image (an exception), otherwise the decoded
dimensions and the container format (`none` models `img.format is None`). -/
structure SrcFile where
  path : String
  size : Nat
  decoded : Option (Nat × Nat × Option String)
deriving DecidableEq, Repr

/-- `_compress_image` (lines 46-115): decode (raising `undecodable` on
failure, since the code has no try/except), run the search loop from the
initial state, and produce the result and the file write. -/
def compressImage (enc : Encoder) (p : Params) (fuel : Nat) (f : SrcFile) :
    Except CompError (CompressResult × Option (String × List Nat)) :=
  match f.decoded with
  | none => .error (.undecodable f.path)
  | some (w, h, fmt) =>
      match runLoop enc p fuel (initSt w h) with
      | none => .error .outOfFuel
      | some st => .ok (finish p f.path f.size fmt st)

/-- `compress_directory` (lines 145-155): process each enumerated file in
order, collecting results.  The code wraps `_compress_image` in no
try/except, so an exception from one file propagates and aborts the
whole run; this is modelled by the `Except` short-circuit. -/
def compressDirectory (enc : Encoder) (p : Params) (fuel : Nat) :
    List SrcFile → Except CompError (List CompressResult)
  | [] => .ok []
  | f :: rest =>
      match compressImage enc p fuel f with
      | .error e => .error e
      | .ok (r, _) =>
          match compressDirectory enc p fuel rest with
          | .error e => .error e
          | .ok rs => .ok (r :: rs)

/-- States visited by the loop: `Reaches enc p s t` holds when the loop
started at `s` is at `t` after zero or more `cont` iterations. -/
inductive Reaches (enc : Encoder) (p : Params) : St → St → Prop where
  | refl (s : St) : Reaches enc p s s
  | step {s t u : St} : loopStep enc p s = .cont t → Reaches enc p t u →
      Reaches enc p s u

/-- An encoder producing a constant buffer of `n` zero bytes, used for
concrete runs. -/
def constEnc (n : Nat) : Encoder := fun _ _ _ => List.replicate n 0

/-- The parameters of the CLI defaults (resize_step 0.9 as 9/10), with a
small target of 10 bytes. -/
def pDefault : Params :=
  { targetSize := 10, minQuality := 30, qualityStep := 5, rNum := 9, rDen := 10 }

/-- CLI-default parameters except `quality_step = 0`. -/
def pStep0 : Params :=
  { targetSize := 10, minQuality := 30, qualityStep := 0, rNum := 9, rDen := 10 }

/-- CLI-default parameters except `quality_step = -10`. -/
def pStepNeg : Params :=
  { targetSize := 10, minQuality := 30, qualityStep := -10, rNum := 9, rDen := 10 }

/-- Range invariant maintained by the loop (for a nonnegative quality
step): quality never exceeds 95, stays at or above the minimum when the
minimum is at most 95, is pinned at 95 when the minimum exceeds 95, and
the dimensions stay at least 1. -/
def QInv (p : Params) (s : St) : Prop :=
  s.quality ≤ 95 ∧ (p.minQuality ≤ 95 → p.minQuality ≤ s.quality) ∧
  (95 < p.minQuality → s.quality = 95) ∧ 1 ≤ s.width ∧ 1 ≤ s.height

theorem qinv_init (p : Params) (w h : Nat) (hw : 1 ≤ w) (hh : 1 ≤ h) :
    QInv p (initSt w h) := by
  refine ⟨le_refl _, fun h95 => h95, fun _ => rfl, hw, hh⟩

/-- Inversion for a `cont` outcome of one loop iteration: either the
quality-lowering branch fired, or the resize branch did. -/
theorem loopStep_cont_inv {enc : Encoder} {p : Params} {s t : St}
    (h : loopStep enc p s = .cont t) :
    (p.targetSize < (enc s.width s.height s.quality).length ∧
      p.minQuality < s.quality ∧
      t = { s with quality := max p.minQuality (s.quality - p.qualityStep) }) ∨
    (p.targetSize < (enc s.width s.height s.quality).length ∧
      s.quality ≤ p.minQuality ∧
      ¬ (max 1 (s.width * p.rNum / p.rDen) = s.width ∧
         max 1 (s.height * p.rNum / p.rDen) = s.height) ∧
      t = { s with width := max 1 (s.width * p.rNum / p.rDen),
                   height := max 1 (s.height * p.rNum / p.rDen),
                   quality := min 95 (max p.minQuality s.quality) }) := by
  simp only [loopStep] at h
  split_ifs at h with h1 h2 h3
  · left
    exact ⟨lt_of_not_le h1, h2, (StepRes.cont.injEq _ _).mp h.symm⟩
  · right
    exact ⟨lt_of_not_le h1, le_of_not_lt h2, h3,
      (StepRes.cont.injEq _ _).mp h.symm⟩

/-- The scaled-down dimension never exceeds the current one (for a
dimension that is at least 1 and a scale factor below 1). -/
theorem newDim_le {w num den : Nat} (hw : 1 ≤ w) (hnd : num < den) :
    max 1 (w * num / den) ≤ w := by
  have hden : 0 < den := lt_of_le_of_lt (Nat.zero_le _) hnd
  have hlt : w * num / den < w := by
    rw [Nat.div_lt_iff_lt_mul hden]
    exact mul_lt_mul_of_pos_left hnd (lt_of_lt_of_le Nat.one_pos hw)
  exact max_le hw (le_of_lt hlt)

/-- Inversion for a `done` outcome of one loop iteration: either the
buffer fit the target, or the cannot-compress exit fired.  In both cases
the exit state's `last_buffer` is the buffer encoded in that iteration. -/
theorem loopStep_done_inv {enc : Encoder} {p : Params} {s t : St}
    (h : loopStep enc p s = .done t) :
    ((enc s.width s.height s.quality).length ≤ p.targetSize ∧
      t = { s with lastBuffer := some (enc s.width s.height s.quality) }) ∨
    (p.targetSize < (enc s.width s.height s.quality).length ∧
      s.quality ≤ p.minQuality ∧
      max 1 (s.width * p.rNum / p.rDen) = s.width ∧
      max 1 (s.height * p.rNum / p.rDen) = s.height ∧
      t = { s with note := .cannotCompress,
                   lastBuffer := some (enc s.width s.height s.quality) }) := by
  simp only [loopStep] at h
  split_ifs at h with h1 h2 h3
  · left
    exact ⟨h1, ((StepRes.done.injEq _ _).mp h).symm⟩
  · right
    exact ⟨lt_of_not_le h1, le_of_not_lt h2, h3.1, h3.2,
      ((StepRes.done.injEq _ _).mp h).symm⟩

theorem loopStep_done_lastBuffer {enc : Encoder} {p : Params} {s t : St}
    (h : loopStep enc p s = .done t) :
    t.lastBuffer = some (enc s.width s.height s.quality) := by
  rcases loopStep_done_inv h with ⟨_, ht⟩ | ⟨_, _, _, _, ht⟩ <;> subst ht <;> rfl

/-- Every loop exit carries a buffer: both `break`s assign `last_buffer`
first. -/
theorem runLoop_lastBuffer {enc : Encoder} {p : Params} :
    ∀ {n : Nat} {s st : St}, runLoop enc p n s = some st →
      ∃ buf, st.lastBuffer = some buf := by
  intro n
  induction n with
  | zero => intro s st h; exact absurd h (by simp [runLoop])
  | succ n ih =>
      intro s st h
      cases hres : loopStep enc p s with
      | done t =>
          simp only [runLoop, hres] at h
          obtain rfl : t = st := by injection h
          exact ⟨_, loopStep_done_lastBuffer hres⟩
      | cont t =>
          simp only [runLoop, hres] at h
          exact ih h

/-- The loop preserves the quality/dimension range invariant, for a
nonnegative quality step. -/
theorem qinv_step {enc : Encoder} {p : Params} {s t : St}
    (hstep : 0 ≤ p.qualityStep) (hinv : QInv p s)
    (h : loopStep enc p s = .cont t) : QInv p t := by
  obtain ⟨hq95, hqmin, hqpin, hw, hh⟩ := hinv
  have hcase := loopStep_cont_inv h
  rcases le_or_lt p.minQuality 95 with hm | hm
  · have hmq := hqmin hm
    rcases hcase with ⟨_, hgt, ht⟩ | ⟨_, hle, _, ht⟩
    · subst ht
      refine ⟨by dsimp only; omega, fun _ => by dsimp only; omega,
        fun hpin => absurd hm (not_le.mpr hpin), hw, hh⟩
    · subst ht
      refine ⟨by dsimp only; omega, fun _ => by dsimp only; omega,
        fun hpin => absurd hm (not_le.mpr hpin), le_max_left _ _, le_max_left _ _⟩
  · have hq := hqpin hm
    rcases hcase with ⟨_, hgt, ht⟩ | ⟨_, hle, _, ht⟩
    · exfalso; omega
    · subst ht
      refine ⟨by dsimp only; omega, fun h95 => absurd h95 (not_le.mpr hm),
        fun _ => by dsimp only; omega, le_max_left _ _, le_max_left _ _⟩

theorem qinv_reaches {enc : Encoder} {p : Params} {s t : St}
    (hstep : 0 ≤ p.qualityStep) (hr : Reaches enc p s t) :
    QInv p s → QInv p t := by
  induction hr with
  | refl s => exact fun hv => hv
  | step hst _ ih => exact fun hv => ih (qinv_step hstep hv hst)

/-- Termination measure for the loop: lexicographic
(width + height, quality headroom above the minimum), packed into a
single natural number using the bound `quality - minQuality ≤ 94` that
the invariant supplies when `1 ≤ minQuality`. -/
def stMeasure (p : Params) (s : St) : Nat :=
  (s.width + s.height) * 96 + (s.quality - p.minQuality).toNat

/-- With a positive quality step and a scale factor below 1, every `cont`
iteration strictly decreases the measure (on invariant states with
`1 ≤ minQuality`). -/
theorem stMeasure_step {enc : Encoder} {p : Params} {s t : St}
    (hstep : 1 ≤ p.qualityStep) (hmin : 1 ≤ p.minQuality)
    (hrr : p.rNum < p.rDen) (hinv : QInv p s)
    (h : loopStep enc p s = .cont t) :
    stMeasure p t < stMeasure p s := by
  obtain ⟨hq95, hqmin, hqpin, hw, hh⟩ := hinv
  rcases loopStep_cont_inv h with ⟨_, hgt, ht⟩ | ⟨_, hle, hne, ht⟩
  · subst ht
    dsimp only [stMeasure]
    omega
  · subst ht
    have h1 := newDim_le hw hrr
    have h2 := newDim_le hh hrr
    dsimp only [stMeasure]
    rcases not_and_or.mp hne with hne1 | hne2
    · omega
    · omega

/-- Fuel sufficiency: from any invariant state of measure at most `m`,
the loop exits within `m + 1` iterations. -/
theorem runLoop_term (enc : Encoder) (p : Params) (hstep : 1 ≤ p.qualityStep)
    (hmin : 1 ≤ p.minQuality) (hrr : p.rNum < p.rDen) :
    ∀ (m : Nat) (s : St), QInv p s → stMeasure p s ≤ m →
      ∃ st, runLoop enc p (m + 1) s = some st := by
  intro m
  induction m with
  | zero =>
      intro s hinv hm
      cases hres : loopStep enc p s with
      | done t => exact ⟨t, by simp [runLoop, hres]⟩
      | cont t => exact absurd (stMeasure_step hstep hmin hrr hinv hres) (by omega)
  | succ m ih =>
      intro s hinv hm
      cases hres : loopStep enc p s with
      | done t => exact ⟨t, by simp [runLoop, hres]⟩
      | cont t =>
          have hlt := stMeasure_step hstep hmin hrr hinv hres
          obtain ⟨st, hst⟩ := ih t (qinv_step (by omega) hinv hres) (by omega)
          exact ⟨st, by simp only [runLoop, hres]; exact hst⟩

/-- The loop never invents a note: the exit state's note is the entry
state's note or the cannot-compress note. -/
theorem runLoop_note {enc : Encoder} {p : Params} :
    ∀ {n : Nat} {s st : St}, runLoop enc p n s = some st →
      st.note = s.note ∨ st.note = Note.cannotCompress := by
  intro n
  induction n with
  | zero => intro s st h; exact absurd h (by simp [runLoop])
  | succ n ih =>
      intro s st h
      cases hres : loopStep enc p s with
      | done t =>
          simp only [runLoop, hres] at h
          obtain rfl : t = st := by injection h
          rcases loopStep_done_inv hres with ⟨_, ht⟩ | ⟨_, _, _, _, ht⟩ <;> subst ht
          · left; rfl
          · right; rfl
      | cont t =>
          simp only [runLoop, hres] at h
          have hnote : t.note = s.note := by
            rcases loopStep_cont_inv hres with ⟨_, _, ht⟩ | ⟨_, _, _, ht⟩ <;>
              subst ht <;> rfl
          rcases ih h with h1 | h1
          · left; rw [h1, hnote]
          · right; exact h1

/-- Claim C2 (counterexample): the claim quantifies over any quality
decrement step, but with `quality_step = 0` (and CLI-default minimum
quality 30, scale factor 0.9) an image whose encoding always exceeds the
target makes the loop spin forever: `max(min_quality, quality - 0)`
leaves the state unchanged, so the quality/resize search never exits. -/
theorem C2_counterexample :
    ¬ LoopTerminates (constEnc 20) pStep0 (initSt 4 4) := by
  have hfix : loopStep (constEnc 20) pStep0 (initSt 4 4) = .cont (initSt 4 4) := by
    decide
  have hnone : ∀ n, runLoop (constEnc 20) pStep0 n (initSt 4 4) = none := by
    intro n
    induction n with
    | zero => rfl
    | succ n ih => simp only [runLoop, hfix]; exact ih
  rintro ⟨n, st, hst⟩
  rw [hnone n] at hst
  exact Option.noConfusion hst

/-- Claim C2 (amended): for every valid request with a positive quality
decrement step (minimum quality on the 1-100 scale, scale factor in
(0,1)) and every decodable image (dimensions at least 1x1), the
quality/resize search loop of `_compress_image` terminates after
finitely many iterations, for every encoder. -/
theorem C2_loop_terminates (enc : Encoder) (p : Params) (w h : Nat)
    (hmin1 : 1 ≤ p.minQuality) (_hmin2 : p.minQuality ≤ 100)
    (hstep : 1 ≤ p.qualityStep) (_hr1 : 0 < p.rNum) (hr2 : p.rNum < p.rDen)
    (hw : 1 ≤ w) (hh : 1 ≤ h) :
    LoopTerminates enc p (initSt w h) := by
  obtain ⟨st, hst⟩ := runLoop_term enc p hstep hmin1 hr2
    (stMeasure p (initSt w h)) (initSt w h) (qinv_init p w h hw hh) (le_refl _)
  exact ⟨_, st, hst⟩

/-- Claim C2 (witness): the amended termination theorem at the CLI
defaults on a 4x4 image whose encoding never fits the target. -/
theorem C2_witness :
    (1 : Int) ≤ pDefault.minQuality ∧ pDefault.minQuality ≤ 100 ∧
    (1 : Int) ≤ pDefault.qualityStep ∧ 0 < pDefault.rNum ∧
    pDefault.rNum < pDefault.rDen ∧
    LoopTerminates (constEnc 20) pDefault (initSt 4 4) :=
  ⟨by decide, by decide, by decide, by decide, by decide,
    C2_loop_terminates (constEnc 20) pDefault 4 4 (by decide) (by decide)
      (by decide) (by decide) (by decide) (by decide) (by decide)⟩

/-- Claim C3 (counterexample): with `quality_step = 0` an iteration of
the loop changes neither the quality (which is strictly above the
minimum-quality floor, 95 > 30) nor the dimensions, so it is false that
every iteration either strictly decreases quality or strictly shrinks
dimensions. -/
theorem C3_counterexample :
    loopStep (constEnc 20) pStep0 (initSt 4 4) = .cont (initSt 4 4) ∧
    pStep0.minQuality < (initSt 4 4).quality := by
  exact ⟨by decide, by decide⟩

/-- Claim C3 (amended): with a positive quality decrement step (and
scale factor below 1), every `cont` iteration of the loop from a
reachable state either strictly decreases quality with dimensions
unchanged, or keeps quality and strictly shrinks the (width, height)
pair; in particular (quality, dimensions) is non-increasing. -/
theorem C3_step_monotone (enc : Encoder) (p : Params) (w h : Nat) (s t : St)
    (hstep : 1 ≤ p.qualityStep) (hrr : p.rNum < p.rDen)
    (hw : 1 ≤ w) (hh : 1 ≤ h)
    (hreach : Reaches enc p (initSt w h) s)
    (hcont : loopStep enc p s = .cont t) :
    (t.quality < s.quality ∧ t.width = s.width ∧ t.height = s.height) ∨
    (t.quality = s.quality ∧ t.width ≤ s.width ∧ t.height ≤ s.height ∧
      (t.width, t.height) ≠ (s.width, s.height)) := by
  have hinv := qinv_reaches (by omega) hreach (qinv_init p w h hw hh)
  obtain ⟨hq95, hqmin, hqpin, hws, hhs⟩ := hinv
  rcases loopStep_cont_inv hcont with ⟨_, hgt, ht⟩ | ⟨_, hle, hne, ht⟩
  · left
    subst ht
    exact ⟨by dsimp only; omega, rfl, rfl⟩
  · right
    subst ht
    have h1 := newDim_le hws hrr
    have h2 := newDim_le hhs hrr
    refine ⟨?_, h1, h2, ?_⟩
    · dsimp only
      rcases le_or_lt p.minQuality 95 with hm | hm
      · have := hqmin hm; omega
      · have := hqpin hm; omega
    · dsimp only
      rw [Ne, Prod.mk.injEq]
      exact hne

/-- Claim C3 (witness): the amended monotonicity theorem at the CLI
defaults, on the first iteration from the initial state of a 4x4 image
that never fits: quality drops 95 to 90, dimensions unchanged. -/
theorem C3_witness :
    (({ quality := 90, width := 4, height := 4, lastBuffer := none,
        note := .empty } : St).quality < (initSt 4 4).quality ∧
      ({ quality := 90, width := 4, height := 4, lastBuffer := none,
         note := .empty } : St).width = (initSt 4 4).width ∧
      ({ quality := 90, width := 4, height := 4, lastBuffer := none,
         note := .empty } : St).height = (initSt 4 4).height) ∨
    (({ quality := 90, width := 4, height := 4, lastBuffer := none,
        note := .empty } : St).quality = (initSt 4 4).quality ∧
      ({ quality := 90, width := 4, height := 4, lastBuffer := none,
         note := .empty } : St).width ≤ (initSt 4 4).width ∧
      ({ quality := 90, width := 4, height := 4, lastBuffer := none,
         note := .empty } : St).height ≤ (initSt 4 4).height ∧
      (({ quality := 90, width := 4, height := 4, lastBuffer := none,
          note := .empty } : St).width,
       ({ quality := 90, width := 4, height := 4, lastBuffer := none,
          note := .empty } : St).height) ≠
        ((initSt 4 4).width, (initSt 4 4).height)) :=
  C3_step_monotone (constEnc 20) pDefault 4 4 (initSt 4 4)
    { quality := 90, width := 4, height := 4, lastBuffer := none, note := .empty }
    (by decide) (by decide) (by decide) (by decide) (Reaches.refl _) (by decide)

/-- Claim C10 (counterexample): the claim puts no sign condition on the
quality step, but with `quality_step = -10` (min_quality = 30, in
[1, 95]) the first decrement `max(30, 95 - (-10))` raises quality to
105, outside [min_quality, 95]. -/
theorem C10_counterexample :
    (1 : Int) ≤ pStepNeg.minQuality ∧ pStepNeg.minQuality ≤ 95 ∧
    loopStep (constEnc 20) pStepNeg (initSt 4 4) =
      .cont { quality := 105, width := 4, height := 4, lastBuffer := none,
              note := .empty } ∧
    (95 : Int) < 105 :=
  ⟨by decide, by decide, by decide, by decide⟩

/-- Claim C10 (amended): with `1 ≤ min_quality ≤ 95` and a nonnegative
quality step, every state the loop visits from the initial state (which
starts at quality 95) has quality within `[min_quality, 95]`: each
decrement is floored at the minimum and each post-resize reset is capped
at 95. -/
theorem C10_quality_range (enc : Encoder) (p : Params) (w h : Nat) (s : St)
    (_hmin1 : 1 ≤ p.minQuality) (hmin2 : p.minQuality ≤ 95)
    (hstep : 0 ≤ p.qualityStep) (hw : 1 ≤ w) (hh : 1 ≤ h)
    (hreach : Reaches enc p (initSt w h) s) :
    p.minQuality ≤ s.quality ∧ s.quality ≤ 95 := by
  have hinv := qinv_reaches hstep hreach (qinv_init p w h hw hh)
  exact ⟨hinv.2.1 hmin2, hinv.1⟩

/-- Claim C10 (witness): the amended range theorem at the CLI defaults
on the initial state itself. -/
theorem C10_witness :
    pDefault.minQuality ≤ (initSt 4 4).quality ∧ (initSt 4 4).quality ≤ 95 :=
  C10_quality_range (constEnc 20) pDefault 4 4 (initSt 4 4) (by decide)
    (by decide) (by decide) (by decide) (by decide) (Reaches.refl _)

/-- Claim C1 (code evidence): `_compress_image` and `compress_directory`
contain no exception handler, so an undecodable file aborts the whole
run with the propagated exception instead of yielding a
`succeeded = false` result record and continuing: with a broken first
file the directory run returns the error and produces no result records
at all, while the same remaining file alone is processed fine. -/
theorem C1_error_escapes :
    compressDirectory (constEnc 5) pDefault 1
      [{ path := "broken.jpg", size := 17, decoded := none },
       { path := "ok.png", size := 500, decoded := some (4, 4, some "PNG") }] =
      .error (.undecodable "broken.jpg") ∧
    compressDirectory (constEnc 5) pDefault 1
      [{ path := "ok.png", size := 500, decoded := some (4, 4, some "PNG") }] =
      .ok [{ path := "ok.png", originalSize := 500, finalSize := 5,
             succeeded := true, note := .converted "PNG" }] := by
  exact ⟨rfl, rfl⟩

/-- Claim C4: on an exit state with an accepted buffer, `finish`
performs exactly one write, of the buffer's bytes to the original path,
`final_size` equals the size of the written bytes, and `succeeded` holds
iff `final_size ≤ target`; on the no-buffer path no write occurs,
`final_size = original_size` and `succeeded = false`. -/
theorem C4_final_size (p : Params) (path : String) (orig : Nat)
    (fmt : Option String) (s : St) :
    (∀ buf, s.lastBuffer = some buf →
      (finish p path orig fmt s).2 = some (path, buf) ∧
      (finish p path orig fmt s).1.finalSize = buf.length ∧
      ((finish p path orig fmt s).1.succeeded = true ↔
        buf.length ≤ p.targetSize)) ∧
    (s.lastBuffer = none →
      (finish p path orig fmt s).2 = none ∧
      (finish p path orig fmt s).1.finalSize = orig ∧
      (finish p path orig fmt s).1.succeeded = false) := by
  constructor
  · intro buf hbuf
    simp [finish, hbuf]
  · intro hnone
    simp [finish, hnone]

/-- Claim C4 (witness): the accepted-buffer clause at a concrete state
holding a 5-byte buffer under the 10-byte target. -/
theorem C4_witness :
    (finish pDefault "a.jpg" 500 none
        { quality := 80, width := 4, height := 4,
          lastBuffer := some (List.replicate 5 0), note := .empty }).2 =
      some ("a.jpg", List.replicate 5 0) ∧
    (finish pDefault "a.jpg" 500 none
        { quality := 80, width := 4, height := 4,
          lastBuffer := some (List.replicate 5 0), note := .empty }).1.finalSize =
      (List.replicate 5 0).length ∧
    ((finish pDefault "a.jpg" 500 none
        { quality := 80, width := 4, height := 4,
          lastBuffer := some (List.replicate 5 0), note := .empty }).1.succeeded =
        true ↔ (List.replicate 5 0).length ≤ pDefault.targetSize) :=
  (C4_final_size pDefault "a.jpg" 500 none
      { quality := 80, width := 4, height := 4,
        lastBuffer := some (List.replicate 5 0), note := .empty }).1
    (List.replicate 5 0) rfl

/-- Claim C5: in the resize branch (buffer over target and quality not
above the minimum) the new dimensions are floor(dimension * scale
factor) clamped to at least 1 on each axis; when they equal the current
dimensions the loop exits accepting the buffer just encoded (which
exceeds the target, by the branch hypothesis) with the cannot-compress
note, otherwise it resizes and continues. -/
theorem C5_resize_branch (enc : Encoder) (p : Params) (s : St)
    (h1 : p.targetSize < (enc s.width s.height s.quality).length)
    (h2 : s.quality ≤ p.minQuality) :
    loopStep enc p s =
      if max 1 (s.width * p.rNum / p.rDen) = s.width ∧
         max 1 (s.height * p.rNum / p.rDen) = s.height then
        .done { s with note := .cannotCompress,
                       lastBuffer := some (enc s.width s.height s.quality) }
      else
        .cont { s with width := max 1 (s.width * p.rNum / p.rDen),
                       height := max 1 (s.height * p.rNum / p.rDen),
                       quality := min 95 (max p.minQuality s.quality) } := by
  simp only [loopStep]
  rw [if_neg (not_le.mpr h1), if_neg (not_lt.mpr h2)]

/-- Claim C5 (witness): the resize branch at a 1x1 image already at the
minimum quality: the clamped dimensions are unchanged and the loop
exits with the cannot-compress note, accepting the oversized buffer. -/
theorem C5_witness :
    loopStep (constEnc 20) pDefault
      { quality := 30, width := 1, height := 1, lastBuffer := none,
        note := .empty } =
      if max 1 (1 * pDefault.rNum / pDefault.rDen) = 1 ∧
         max 1 (1 * pDefault.rNum / pDefault.rDen) = 1 then
        .done { quality := 30, width := 1, height := 1,
                lastBuffer := some (List.replicate 20 0),
                note := .cannotCompress }
      else
        .cont { quality := 30, width := max 1 (1 * pDefault.rNum / pDefault.rDen),
                height := max 1 (1 * pDefault.rNum / pDefault.rDen),
                lastBuffer := none, note := .empty } :=
  C5_resize_branch (constEnc 20) pDefault
    { quality := 30, width := 1, height := 1, lastBuffer := none,
      note := .empty } (by decide) (by decide)

/-- Claim C6 (code evidence): on a resize step the next quality is the
code's `min(95, max(min_quality, quality))`; but the resize branch runs
only when `quality ≤ min_quality`, so for `min_quality ≤ 95` this
formula evaluates to exactly `min_quality`: quality stays at the floor
and no headroom for another quality-reduction round is restored,
contrary to the claim and to the code's own comment. -/
theorem C6_reset_is_noop (enc : Encoder) (p : Params) (s t : St)
    (hm : p.minQuality ≤ 95) (hq : s.quality ≤ p.minQuality)
    (hcont : loopStep enc p s = .cont t) :
    t.quality = min 95 (max p.minQuality s.quality) ∧
    t.quality = p.minQuality ∧ ¬ p.minQuality < t.quality := by
  rcases loopStep_cont_inv hcont with ⟨_, hgt, _⟩ | ⟨_, hle, _, ht⟩
  · exact absurd hgt (not_lt.mpr hq)
  · subst ht
    exact ⟨rfl, by dsimp only; omega, by dsimp only; omega⟩

/-- Claim C6 (witness): a concrete resize step at the CLI defaults with
quality already at the floor 30: the reset formula yields 30 again. -/
theorem C6_witness :
    ({ quality := 30, width := 3, height := 3, lastBuffer := none,
       note := .empty } : St).quality =
      min 95 (max pDefault.minQuality
        ({ quality := 30, width := 4, height := 4, lastBuffer := none,
           note := .empty } : St).quality) ∧
    ({ quality := 30, width := 3, height := 3, lastBuffer := none,
       note := .empty } : St).quality = pDefault.minQuality ∧
    ¬ pDefault.minQuality <
      ({ quality := 30, width := 3, height := 3, lastBuffer := none,
         note := .empty } : St).quality :=
  C6_reset_is_noop (constEnc 20) pDefault
    { quality := 30, width := 4, height := 4, lastBuffer := none,
      note := .empty }
    { quality := 30, width := 3, height := 3, lastBuffer := none,
      note := .empty }
    (by decide) (by decide) (by decide)

/-- Claim C7: the format-conversion note has lowest priority: on the
write path (a buffer is accepted, and the loop can only have left the
note empty or cannot-compress), the result's note is a conversion note
iff the exit note was empty, the final size fits the target (otherwise
the best-effort note was set first), and the uppercased format
differs from JPEG; a previously set note is never replaced, and on
success a prior note gets the final size appended. -/
theorem C7_note_precedence (p : Params) (path : String) (orig : Nat)
    (fmt : Option String) (s : St) (buf : List Nat)
    (hbuf : s.lastBuffer = some buf)
    (hsn : s.note = Note.empty ∨ s.note = Note.cannotCompress) :
    ((∃ f, (finish p path orig fmt s).1.note = Note.converted f) ↔
      (s.note = Note.empty ∧ buf.length ≤ p.targetSize ∧
        strUpper (fmt.getD "JPEG") ≠ "JPEG")) ∧
    (s.note ≠ Note.empty → buf.length ≤ p.targetSize →
      (finish p path orig fmt s).1.note =
        Note.withFinalSize s.note buf.length) ∧
    (s.note ≠ Note.empty → ¬ buf.length ≤ p.targetSize →
      (finish p path orig fmt s).1.note = s.note) := by
  rcases hsn with hsn | hsn <;>
    by_cases hsucc : buf.length ≤ p.targetSize <;>
      by_cases hfmt : strUpper (fmt.getD "JPEG") = "JPEG" <;>
        simp [finish, hbuf, hsn, hsucc, hfmt]

/-- Claim C7 (witness): a successful exit with the cannot-compress note
set gets the final size appended instead of a conversion note. -/
theorem C7_witness :
    (finish pDefault "a.png" 500 (some "PNG")
        { quality := 30, width := 1, height := 1,
          lastBuffer := some (List.replicate 5 0),
          note := .cannotCompress }).1.note =
      Note.withFinalSize Note.cannotCompress (List.replicate 5 0).length :=
  (C7_note_precedence pDefault "a.png" 500 (some "PNG")
      { quality := 30, width := 1, height := 1,
        lastBuffer := some (List.replicate 5 0), note := .cannotCompress }
      (List.replicate 5 0) rfl (Or.inr rfl)).2.1 (by decide) (by decide)

/-- Claim C8: if the first encode, at quality 95 with the original
dimensions, already fits the target, the loop exits on its first
iteration with dimensions unchanged from the original and the result is
`succeeded = true` with `final_size ≤ target`. -/
theorem C8_first_encode_fits (enc : Encoder) (p : Params) (path : String)
    (orig w h : Nat) (fmt : Option String)
    (hfit : (enc w h 95).length ≤ p.targetSize) :
    runLoop enc p 1 (initSt w h) =
      some { initSt w h with lastBuffer := some (enc w h 95) } ∧
    ({ initSt w h with lastBuffer := some (enc w h 95) } : St).width = w ∧
    ({ initSt w h with lastBuffer := some (enc w h 95) } : St).height = h ∧
    (finish p path orig fmt
        { initSt w h with lastBuffer := some (enc w h 95) }).1.succeeded =
      true ∧
    (finish p path orig fmt
        { initSt w h with lastBuffer := some (enc w h 95) }).1.finalSize ≤
      p.targetSize := by
  refine ⟨?_, rfl, rfl, ?_, ?_⟩
  · have hdone : loopStep enc p (initSt w h) =
        .done { initSt w h with lastBuffer := some (enc w h 95) } := by
      simp only [loopStep, initSt]
      rw [if_pos hfit]
    simp only [runLoop, hdone]
  · simp only [finish]
    exact decide_eq_true hfit
  · simp only [finish]
    exact hfit

/-- Claim C8 (witness): the first-encode-fits theorem at the CLI
defaults with a 5-byte encoding of a 4x4 image under the 10-byte
target. -/
theorem C8_witness :
    runLoop (constEnc 5) pDefault 1 (initSt 4 4) =
      some { initSt 4 4 with lastBuffer := some (constEnc 5 4 4 95) } ∧
    ({ initSt 4 4 with lastBuffer := some (constEnc 5 4 4 95) } : St).width = 4 ∧
    ({ initSt 4 4 with lastBuffer := some (constEnc 5 4 4 95) } : St).height = 4 ∧
    (finish pDefault "a.jpg" 500 none
        { initSt 4 4 with lastBuffer := some (constEnc 5 4 4 95) }).1.succeeded =
      true ∧
    (finish pDefault "a.jpg" 500 none
        { initSt 4 4 with lastBuffer := some (constEnc 5 4 4 95) }).1.finalSize ≤
      pDefault.targetSize :=
  C8_first_encode_fits (constEnc 5) pDefault "a.jpg" 500 4 4 none (by decide)

/-- Claim C9: whenever the search loop terminates from the loop-entry
state, the exit state carries a buffer (both loop exits assign
`last_buffer` before breaking), so `finish` takes the write path: a
write occurs and the generic unknown-problem failure result is
unreachable — that branch is dead code for terminating runs. -/
theorem C9_unknown_dead (enc : Encoder) (p : Params) (path : String)
    (orig n w h : Nat) (fmt : Option String) (st : St)
    (hrun : runLoop enc p n (initSt w h) = some st) :
    ∃ buf, st.lastBuffer = some buf ∧
      (finish p path orig fmt st).2 = some (path, buf) ∧
      (finish p path orig fmt st).1.note ≠ Note.unknownProblem := by
  obtain ⟨buf, hbuf⟩ := runLoop_lastBuffer hrun
  refine ⟨buf, hbuf, ?_, ?_⟩
  · simp only [finish, hbuf]
  · have hnote := runLoop_note hrun
    simp only [initSt] at hnote
    simp only [finish, hbuf]
    rcases hnote with hnote | hnote <;> rw [hnote] <;> split_ifs <;> simp

/-- Claim C9 (witness): a terminating one-iteration run at the CLI
defaults. -/
theorem C9_witness :
    ∃ buf, ({ initSt 4 4 with
        lastBuffer := some (constEnc 5 4 4 95) } : St).lastBuffer = some buf ∧
      (finish pDefault "a.jpg" 500 none
          { initSt 4 4 with lastBuffer := some (constEnc 5 4 4 95) }).2 =
        some ("a.jpg", buf) ∧
      (finish pDefault "a.jpg" 500 none
          { initSt 4 4 with lastBuffer := some (constEnc 5 4 4 95) }).1.note ≠
        Note.unknownProblem :=
  C9_unknown_dead (constEnc 5) pDefault "a.jpg" 500 1 4 4 none
    { initSt 4 4 with lastBuffer := some (constEnc 5 4 4 95) } (by decide)

end ImgCompressor
